import Mathlib

/-!
Shallow embedding of the Tetris core logic of `next-tetris`
(`src/components/tetris/tetris-2d.tsx`, `tetris-3d.tsx`,
`tetris-3d-crazy-3d.tsx`): board/piece collision validation, merge,
line clearing, rotation with wall kicks, hard drop, hold/store, scoring,
leveling and game-over, together with theorems checking the
natural-language specification against this embedding.
-/

namespace NextTetris

/-! ## Constants (identical across all variants) -/

def BOARD_WIDTH : Nat := 10
def BOARD_HEIGHT : Nat := 20
def BOARD_DEPTH : Nat := 10
def SPEED_INCREMENT : Nat := 50
def LEVEL_THRESHOLD : Nat := 1000

/-! ## Data model -/

abbrev Row := List Nat
abbrev Board := List Row

/-- 2D piece: shape grid, position (x,y), color id. -/
structure Piece where
  shape : List (List Nat)
  x : Int
  y : Int
  color : Nat
deriving Repr, DecidableEq

/-- `shape[y][x]`, reading a missing entry as 0 (empty). -/
def shapeCell (shape : List (List Nat)) (y x : Nat) : Nat :=
  (shape.getD y []).getD x 0

/-- `board[y][x]`, reading a missing entry as 0; only consulted after the
bounds guards of `isValidMove`, matching the source's access pattern. -/
def boardCell (board : Board) (y x : Int) : Nat :=
  (board.getD y.toNat []).getD x.toNat 0

/-! ## Collision check (`isValidMove`, identical in all 2D variants) -/

/-- Embeds `isValidMove` from `tetris-2d.tsx` / `tetris-3d.tsx`: for every
occupied sub-cell, fail when `newX < 0 || newX >= BOARD_WIDTH ||
newY >= BOARD_HEIGHT || (newY >= 0 && board[newY][newX])`. -/
def isValidMove (p : Piece) (board : Board) : Bool :=
  (List.range p.shape.length).all fun dy =>
    (List.range (p.shape.getD dy []).length).all fun dx =>
      if shapeCell p.shape dy dx ≠ 0 then
        let newX : Int := p.x + dx
        let newY : Int := p.y + dy
        !(decide (newX < 0) || decide ((BOARD_WIDTH : Int) ≤ newX) ||
          decide ((BOARD_HEIGHT : Int) ≤ newY) ||
          (decide (0 ≤ newY) && decide (boardCell board newY newX ≠ 0)))
      else true

/-! ## 3D volumetric variant (`tetris-3d-crazy-3d.tsx`) -/

abbrev Board3 := List Board

structure Piece3 where
  shape : List (List (List Nat))
  x : Int
  y : Int
  z : Int
  color : Nat
deriving Repr, DecidableEq

def shapeCell3 (shape : List (List (List Nat))) (z y x : Nat) : Nat :=
  ((shape.getD z []).getD y []).getD x 0

def boardCell3 (board : Board3) (z y x : Int) : Nat :=
  ((board.getD z.toNat []).getD y.toNat []).getD x.toNat 0

/-- Embeds `isValidMove` from `tetris-3d-crazy-3d.tsx`, adding the depth
bounds `newZ < 0 || newZ >= BOARD_DEPTH`. -/
def isValidMove3 (p : Piece3) (board : Board3) : Bool :=
  (List.range p.shape.length).all fun dz =>
    (List.range ((p.shape.getD dz []).length)).all fun dy =>
      (List.range (((p.shape.getD dz []).getD dy []).length)).all fun dx =>
        if shapeCell3 p.shape dz dy dx ≠ 0 then
          let newX : Int := p.x + dx
          let newY : Int := p.y + dy
          let newZ : Int := p.z + dz
          !(decide (newX < 0) || decide ((BOARD_WIDTH : Int) ≤ newX) ||
            decide ((BOARD_HEIGHT : Int) ≤ newY) ||
            decide (newZ < 0) || decide ((BOARD_DEPTH : Int) ≤ newZ) ||
            (decide (0 ≤ newY) && decide (boardCell3 board newZ newY newX ≠ 0)))
        else true

/-! ## Merge (lock) -/

/-- Write value `v` at `board[y][x]` (in-range writes only ever occur in
validated positions, matching the source precondition). -/
def setCell (board : Board) (y x : Int) (v : Nat) : Board :=
  if 0 ≤ y ∧ 0 ≤ x then
    board.set y.toNat ((board.getD y.toNat []).set x.toNat v)
  else board

/-- Embeds `mergePieceToBoard`: copies the board and writes the piece's
color id at every occupied sub-cell. -/
def mergePieceToBoard (p : Piece) (board : Board) : Board :=
  (List.range p.shape.length).foldl
    (fun b dy =>
      (List.range (p.shape.getD dy []).length).foldl
        (fun b2 dx =>
          if shapeCell p.shape dy dx ≠ 0 then
            setCell b2 (p.y + dy) (p.x + dx) p.color
          else b2) b)
    board

/-! ## Line clearing -/

/-- `row.every(cell => cell !== 0)` -/
def isFullRow (row : Row) : Bool := row.all fun c => decide (c ≠ 0)

def emptyRow : Row := List.replicate BOARD_WIDTH 0

/-- Embeds `clearLines`: keep non-full rows, count the full ones, then
unshift empty rows until the board has `BOARD_HEIGHT` rows again. -/
def clearLines (board : Board) : Board × Nat :=
  let kept := board.filter fun row => !(isFullRow row)
  (List.replicate (BOARD_HEIGHT - kept.length) emptyRow ++ kept,
   board.countP isFullRow)

/-- Embeds `clearLines` of the volumetric variant: each depth plane is
filtered and re-padded independently; the count totals over all planes. -/
def clearLines3 (board : Board3) : Board3 × Nat :=
  (board.map fun plane =>
     let kept := plane.filter fun row => !(isFullRow row)
     List.replicate (BOARD_HEIGHT - kept.length) emptyRow ++ kept,
   (board.map fun plane => plane.countP isFullRow).sum)

/-! ## Rotation and kicks -/

/-- Embeds `shape[0].map((_, i) => shape.map(row => row[i]).reverse())`:
clockwise quarter-turn by transpose-then-reverse-each-row. -/
def rotateShape (shape : List (List Nat)) : List (List Nat) :=
  (List.range (shape.headD []).length).map fun i =>
    (shape.map fun row => row.getD i 0).reverse

def rotatedPiece (p : Piece) : Piece := { p with shape := rotateShape p.shape }

/-- The fixed kick offset table of the hold-enabled 2D variant, in source
order. -/
def kicks : List (Int × Int) := [(1, 0), (-1, 0), (0, -1), (1, -1), (-1, -1)]

def kickedPiece (np : Piece) (k : Int × Int) : Piece :=
  { np with x := np.x + k.1, y := np.y + k.2 }

/-- Embeds the `for (const kick of kicks)` loop with early return: try each
offset in order, return the first kicked piece that validates. -/
def tryKicks (np : Piece) (board : Board) : List (Int × Int) → Option Piece
  | [] => none
  | k :: rest =>
    if isValidMove (kickedPiece np k) board then some (kickedPiece np k)
    else tryKicks np board rest

/-! ## Shape catalog and spawning -/

/-- The 7 tetromino templates (shape, color id), as in `SHAPES`. -/
def SHAPES : List (List (List Nat) × Nat) :=
  [([[1, 1, 1, 1]], 1),
   ([[1, 1], [1, 1]], 2),
   ([[1, 1, 1], [0, 1, 0]], 3),
   ([[1, 1, 1], [1, 0, 0]], 4),
   ([[1, 1, 1], [0, 0, 1]], 5),
   ([[1, 1, 0], [0, 1, 1]], 6),
   ([[0, 1, 1], [1, 1, 0]], 7)]

/-- `Math.floor(BOARD_WIDTH / 2) - Math.floor(shape[0].length / 2)` -/
def spawnX (shape : List (List Nat)) : Int :=
  (BOARD_WIDTH / 2 : Nat) - ((shape.headD []).length / 2 : Nat)

/-- Embeds `createNewPiece`, with the random catalog index made an explicit
parameter. -/
def createNewPiece (i : Nat) : Piece :=
  let t := SHAPES.getD i ([], 0)
  { shape := t.1, x := spawnX t.1, y := 0, color := t.2 }

/-! ## Plain 2D variant (`tetris-2d.tsx`, first component): session state -/

structure GameState where
  board : Board
  piece : Option Piece
  nextPiece : Option Piece
  score : Nat
  level : Nat
  gameOver : Bool
  speed : Nat
deriving Repr, DecidableEq

/-- Score/level/speed part of the lock sequence, shared verbatim by every
variant: `newScore = score + linesCleared*linesCleared*100 + 10`, then
`if (newScore >= level * LEVEL_THRESHOLD) { level++; speed =
max(speed - SPEED_INCREMENT, 100) }`. Returns (newScore, level, speed). -/
def lockProgress (score level speed linesCleared : Nat) : Nat × Nat × Nat :=
  let newScore := score + linesCleared * linesCleared * 100 + 10
  if newScore ≥ level * LEVEL_THRESHOLD then
    (newScore, level + 1, max (speed - SPEED_INCREMENT) 100)
  else
    (newScore, level, speed)

/-- Embeds `moveDown` of the plain 2D variant. The pieces the two possible
`createNewPiece()` calls would draw are passed as `f1`, `f2`. Note: when a
`nextPiece` exists it is installed without validation. -/
def moveDown (s : GameState) (f1 f2 : Piece) : GameState :=
  match s.piece with
  | none => s
  | some p =>
    let down := { p with y := p.y + 1 }
    if isValidMove down s.board then { s with piece := some down }
    else
      let cleared := clearLines (mergePieceToBoard p s.board)
      let prog := lockProgress s.score s.level s.speed cleared.2
      match s.nextPiece with
      | some np =>
        { s with board := cleared.1, score := prog.1, level := prog.2.1,
                 speed := prog.2.2, piece := some np, nextPiece := some f1 }
      | none =>
        if !(isValidMove f1 cleared.1) then
          { s with board := cleared.1, score := prog.1, level := prog.2.1,
                   speed := prog.2.2, gameOver := true }
        else
          { s with board := cleared.1, score := prog.1, level := prog.2.1,
                   speed := prog.2.2, piece := some f1, nextPiece := some f2 }

/-- Embeds `moveSideways` (identical in all 2D variants). -/
def moveSideways (s : GameState) (dLeft : Bool) : GameState :=
  match s.piece with
  | none => s
  | some p =>
    let np := { p with x := p.x + (if dLeft then -1 else 1) }
    if isValidMove np s.board then { s with piece := some np } else s

/-- Embeds `rotate` of the rotation-only variants (plain 2D and
`tetris-3d.tsx`): no kicks, silently reject when invalid. -/
def rotatePlain (s : GameState) : GameState :=
  match s.piece with
  | none => s
  | some p =>
    let np := rotatedPiece p
    if isValidMove np s.board then { s with piece := some np } else s

/-- Intents of the plain 2D key handler. -/
inductive Intent where
  | left | right | down | rot
deriving Repr, DecidableEq

/-- Embeds `handleKeyPress` of the plain 2D variant:
`if (gameOver) return;` then dispatch. -/
def handleIntent (s : GameState) (i : Intent) (f1 f2 : Piece) : GameState :=
  if s.gameOver then s
  else
    match i with
    | .left => moveSideways s true
    | .right => moveSideways s false
    | .down => moveDown s f1 f2
    | .rot => rotatePlain s

/-! ## Hold-enabled 2D variant (`tetris-2d.tsx`, canvas component) -/

structure HoldState where
  board : Board
  piece : Option Piece
  nextPiece : Option Piece
  score : Nat
  level : Nat
  gameOver : Bool
  speed : Nat
  storedPiece : Option Piece
  canStore : Bool
  highScore : Nat
deriving Repr, DecidableEq

/-- `if (newScore > highScore) setHighScore(newScore)` -/
def updateHighScore (highScore newScore : Nat) : Nat :=
  if newScore > highScore then newScore else highScore

/-- The piece promoted on a lock-and-advance, paired with the new next
piece: the pre-generated next when present, else the first fresh draw. -/
def promotedPair (next : Option Piece) (f1 f2 : Piece) : Piece × Piece :=
  match next with
  | some np => (np, f1)
  | none => (f1, f2)

/-- Embeds `moveDown` of the hold-enabled variant: on lock, both the
pre-generated next piece and a freshly drawn piece are validated before
installation, and `canStore` is reset to true on success. -/
def moveDownH (s : HoldState) (f1 f2 : Piece) : HoldState :=
  match s.piece with
  | none => s
  | some p =>
    let down := { p with y := p.y + 1 }
    if isValidMove down s.board then { s with piece := some down }
    else
      let cleared := clearLines (mergePieceToBoard p s.board)
      let prog := lockProgress s.score s.level s.speed cleared.2
      let hs := updateHighScore s.highScore prog.1
      let promoted := promotedPair s.nextPiece f1 f2
      if !(isValidMove promoted.1 cleared.1) then
        { s with board := cleared.1, score := prog.1, level := prog.2.1,
                 speed := prog.2.2, highScore := hs, gameOver := true }
      else
        { s with board := cleared.1, score := prog.1, level := prog.2.1,
                 speed := prog.2.2, highScore := hs,
                 piece := some promoted.1, nextPiece := some promoted.2,
                 canStore := true }

/-- Fuel-indexed embedding of the `while (isValidMove(...y: dropY + 1...))
dropY++;` loop of `getDropPosition`. -/
def dropGo (p : Piece) (board : Board) : Nat → Int → Int
  | 0, y => y
  | n + 1, y =>
    if isValidMove { p with y := y + 1 } board then dropGo p board n (y + 1)
    else y

/-- Embeds `getDropPosition` (returning the landing `y`; `x` is unchanged).
The fuel `(BOARD_HEIGHT - p.y).toNat` covers every descent the loop can
make, since any valid position of a non-empty shape has `y < BOARD_HEIGHT`. -/
def getDropPosition (p : Piece) (board : Board) : Int :=
  dropGo p board ((BOARD_HEIGHT : Int) - p.y).toNat p.y

/-- Embeds `hardDrop` of the hold-enabled variant: jump to the drop
position, merge and clear immediately, score with the extra
`dropPosition.y - piece.position.y` bonus, then promote as in `moveDown`. -/
def hardDropH (s : HoldState) (f1 f2 : Piece) : HoldState :=
  match s.piece with
  | none => s
  | some p =>
    let dy := getDropPosition p s.board
    let landed := { p with y := dy }
    let cleared := clearLines (mergePieceToBoard landed s.board)
    let newScore := s.score + cleared.2 * cleared.2 * 100 + 10 + (dy - p.y).toNat
    let lv := if newScore ≥ s.level * LEVEL_THRESHOLD then
        (s.level + 1, max (s.speed - SPEED_INCREMENT) 100)
      else (s.level, s.speed)
    let hs := updateHighScore s.highScore newScore
    let promoted := promotedPair s.nextPiece f1 f2
    if !(isValidMove promoted.1 cleared.1) then
      { s with board := cleared.1, score := newScore, level := lv.1,
               speed := lv.2, highScore := hs, piece := some landed,
               gameOver := true }
    else
      { s with board := cleared.1, score := newScore, level := lv.1,
               speed := lv.2, highScore := hs,
               piece := some promoted.1, nextPiece := some promoted.2,
               canStore := true }

/-- Embeds `rotate` of the hold-enabled variant: plain rotation first, then
the kick table in order, otherwise leave the piece unchanged. -/
def rotateH (s : HoldState) : HoldState :=
  match s.piece with
  | none => s
  | some p =>
    let np := rotatedPiece p
    if isValidMove np s.board then { s with piece := some np }
    else
      match tryKicks np s.board kicks with
      | some kp => { s with piece := some kp }
      | none => s

/-- Embeds `moveSideways` of the hold-enabled variant. -/
def moveSidewaysH (s : HoldState) (dLeft : Bool) : HoldState :=
  match s.piece with
  | none => s
  | some p =>
    let np := { p with x := p.x + (if dLeft then -1 else 1) }
    if isValidMove np s.board then { s with piece := some np } else s

/-- Embeds `storePiece`: guarded by `canStore` and an active piece; swap
with the stored piece at its spawn position when valid, otherwise keep
everything but still consume the hold; first-time store promotes next (or
a fresh draw `f`); `canStore` becomes false in every non-guarded path. -/
def storePieceH (s : HoldState) (f : Piece) : HoldState :=
  if !s.canStore then s
  else
    match s.piece with
    | none => s
    | some p =>
      match s.storedPiece with
      | some q =>
        let restored := { q with x := spawnX q.shape, y := 0 }
        if isValidMove restored s.board then
          { s with storedPiece := some p, piece := some restored,
                   canStore := false }
        else
          { s with canStore := false }
      | none =>
        match s.nextPiece with
        | some np =>
          { s with storedPiece := some p, piece := some np,
                   nextPiece := some f, canStore := false }
        | none =>
          { s with storedPiece := some p, piece := some f,
                   canStore := false }

/-- Intents of the hold-enabled key handler. -/
inductive IntentH where
  | left | right | down | drop | rot | store
deriving Repr, DecidableEq

/-- Embeds `handleKeyPress` of the hold-enabled variant:
`if (gameOver) return;` then dispatch. -/
def handleIntentH (s : HoldState) (i : IntentH) (f1 f2 : Piece) : HoldState :=
  if s.gameOver then s
  else
    match i with
    | .left => moveSidewaysH s true
    | .right => moveSidewaysH s false
    | .down => moveDownH s f1 f2
    | .drop => hardDropH s f1 f2
    | .rot => rotateH s
    | .store => storePieceH s f1

/-- Single-step soft-drop iteration derived from `moveDown`'s descent/lock
alternative, restricted to the board/piece effect: descend while valid,
else lock (merge then clear). Fuel-indexed like `dropGo`. -/
def softDropLock (board : Board) : Nat → Piece → Board × Nat
  | 0, p => clearLines (mergePieceToBoard p board)
  | n + 1, p =>
    let down := { p with y := p.y + 1 }
    if isValidMove down board then softDropLock board n down
    else clearLines (mergePieceToBoard p board)

/-! ## Spec-side characterisation of validity (claim C1) -/

/-- Spec-side failure predicate: some occupied sub-cell lands horizontally
out of `[0, BOARD_WIDTH)`, or vertically at/below the floor, or on an
occupied cell at non-negative vertical coordinate. -/
def OutOfPlay (p : Piece) (b : Board) : Prop :=
  ∃ dy dx : Nat, dy < p.shape.length ∧ dx < (p.shape.getD dy []).length ∧
    shapeCell p.shape dy dx ≠ 0 ∧
    (p.x + (dx : Int) < 0 ∨ (BOARD_WIDTH : Int) ≤ p.x + dx ∨
     (BOARD_HEIGHT : Int) ≤ p.y + dy ∨
     (0 ≤ p.y + (dy : Int) ∧ boardCell b (p.y + dy) (p.x + dx) ≠ 0))

/-- Spec-side failure predicate for the volumetric variant, adding the
depth bounds `[0, BOARD_DEPTH)`. -/
def OutOfPlay3 (p : Piece3) (b : Board3) : Prop :=
  ∃ dz dy dx : Nat, dz < p.shape.length ∧
    dy < (p.shape.getD dz []).length ∧
    dx < ((p.shape.getD dz []).getD dy []).length ∧
    shapeCell3 p.shape dz dy dx ≠ 0 ∧
    (p.x + (dx : Int) < 0 ∨ (BOARD_WIDTH : Int) ≤ p.x + dx ∨
     (BOARD_HEIGHT : Int) ≤ p.y + dy ∨
     p.z + (dz : Int) < 0 ∨ (BOARD_DEPTH : Int) ≤ p.z + dz ∨
     (0 ≤ p.y + (dy : Int) ∧ boardCell3 b (p.z + dz) (p.y + dy) (p.x + dx) ≠ 0))

lemma isValidMove_false_iff (p : Piece) (b : Board) :
    isValidMove p b = false ↔ OutOfPlay p b := by
  rw [← not_iff_not, Bool.not_eq_false]
  unfold isValidMove OutOfPlay
  simp only [List.all_eq_true, List.mem_range, not_exists]
  constructor
  · rintro h dy dx ⟨hdy, hdx, hocc, hbad⟩
    have h2 := h dy hdy dx hdx
    rw [if_pos hocc] at h2
    simp only [Bool.not_eq_eq_eq_not, Bool.not_true, Bool.or_eq_false_iff,
      decide_eq_false_iff_not, Bool.and_eq_false_iff] at h2
    obtain ⟨⟨⟨h1, h2'⟩, h3⟩, h4⟩ := h2
    rcases hbad with hb | hb | hb | ⟨hb1, hb2⟩
    · exact h1 hb
    · exact h2' hb
    · exact h3 hb
    · rcases h4 with h4 | h4
      · exact h4 hb1
      · exact h4 hb2
  · intro h dy hdy dx hdx
    by_cases hocc : shapeCell p.shape dy dx ≠ 0
    · rw [if_pos hocc]
      have h0 := h dy dx
      simp only [not_and, not_or, not_lt, not_le] at h0
      obtain ⟨h1, h2, h3, h4⟩ := h0 hdy hdx hocc
      simp only [Bool.not_eq_eq_eq_not, Bool.not_true, Bool.or_eq_false_iff,
        decide_eq_false_iff_not, Bool.and_eq_false_iff]
      refine ⟨⟨⟨?_, ?_⟩, ?_⟩, ?_⟩
      · omega
      · omega
      · omega
      · by_cases hy : (0 : Int) ≤ p.y + dy
        · right
          exact h4 hy
        · left
          simpa using hy
    · rw [if_neg hocc]

lemma isValidMove3_false_iff (p : Piece3) (b : Board3) :
    isValidMove3 p b = false ↔ OutOfPlay3 p b := by
  rw [← not_iff_not, Bool.not_eq_false]
  unfold isValidMove3 OutOfPlay3
  simp only [List.all_eq_true, List.mem_range, not_exists]
  constructor
  · rintro h dz dy dx ⟨hdz, hdy, hdx, hocc, hbad⟩
    have h2 := h dz hdz dy hdy dx hdx
    rw [if_pos hocc] at h2
    simp only [Bool.not_eq_eq_eq_not, Bool.not_true, Bool.or_eq_false_iff,
      decide_eq_false_iff_not, Bool.and_eq_false_iff] at h2
    obtain ⟨⟨⟨⟨⟨h1, h2'⟩, h3⟩, h5⟩, h6⟩, h4⟩ := h2
    rcases hbad with hb | hb | hb | hb | hb | ⟨hb1, hb2⟩
    · exact h1 hb
    · exact h2' hb
    · exact h3 hb
    · exact h5 hb
    · exact h6 hb
    · rcases h4 with h4 | h4
      · exact h4 hb1
      · exact h4 hb2
  · intro h dz hdz dy hdy dx hdx
    by_cases hocc : shapeCell3 p.shape dz dy dx ≠ 0
    · rw [if_pos hocc]
      have h0 := h dz dy dx
      simp only [not_and, not_or, not_lt, not_le] at h0
      obtain ⟨h1, h2, h3, h5, h6, h4⟩ := h0 hdz hdy hdx hocc
      simp only [Bool.not_eq_eq_eq_not, Bool.not_true, Bool.or_eq_false_iff,
        decide_eq_false_iff_not, Bool.and_eq_false_iff]
      refine ⟨⟨⟨⟨⟨?_, ?_⟩, ?_⟩, ?_⟩, ?_⟩, ?_⟩
      · omega
      · omega
      · omega
      · omega
      · omega
      · by_cases hy : (0 : Int) ≤ p.y + dy
        · right
          exact h4 hy
        · left
          simpa using hy
    · rw [if_neg hocc]

/-- Claim C1: for every piece and board, `isValidMove` returns false iff
some occupied sub-cell lands horizontally (or, in the volumetric variant,
depth-wise) outside `[0, extent)`, or vertically at/below the board
height, or — only with non-negative vertical coordinate — on an occupied
board cell; sub-cells with negative vertical coordinate are exempt from
the occupancy check but still constrained horizontally/depth-wise. -/
theorem c1_validity_characterisation :
    (∀ (p : Piece) (b : Board), isValidMove p b = false ↔ OutOfPlay p b) ∧
    (∀ (p : Piece3) (b : Board3), isValidMove3 p b = false ↔ OutOfPlay3 p b) :=
  ⟨isValidMove_false_iff, isValidMove3_false_iff⟩

/-! ## Claim C2: line clearing -/

/-- Spec-side "full row": every cell is non-zero. -/
def RowFull (row : Row) : Prop := ∀ c ∈ row, c ≠ 0

instance (row : Row) : Decidable (RowFull row) := by
  unfold RowFull; infer_instance

lemma isFullRow_iff (row : Row) : isFullRow row = true ↔ RowFull row := by
  simp [isFullRow, RowFull, List.all_eq_true]

lemma isFullRow_eq_decide (row : Row) : isFullRow row = decide (RowFull row) := by
  by_cases h : RowFull row
  · simp [h, (isFullRow_iff row).mpr h]
  · have hf : isFullRow row = false :=
      Bool.eq_false_iff.mpr (fun hc => h ((isFullRow_iff row).mp hc))
    simp [h, hf]

lemma length_filter_not_add_countP {α : Type} (l : List α) (p : α → Bool) :
    (l.filter fun a => !(p a)).length + l.countP p = l.length := by
  induction l with
  | nil => simp
  | cons a t ih =>
    by_cases h : p a = true <;>
      simp [List.filter_cons, List.countP_cons, h] <;> omega

/-- The kept (non-full) rows of `clearLines`. -/
lemma clearLines_snd (board : Board) :
    (clearLines board).2 = board.countP isFullRow := rfl

/-- Claim C2: on a `BOARD_HEIGHT`-row board, `clearLines` removes exactly
the full rows (every cell non-zero), all simultaneously, prepends that
many empty rows so the result again has `BOARD_HEIGHT` rows, preserves the
relative order of the remaining rows, and returns the count of removed
rows; with no full row it returns the board unchanged with count 0. The
volumetric `clearLines` does the same per depth plane, totalling the
count. -/
theorem c2_clearLines_correct (board : Board)
    (hlen : board.length = BOARD_HEIGHT) :
    (clearLines board).1.length = BOARD_HEIGHT ∧
    (clearLines board).2 = (board.filter fun r => decide (RowFull r)).length ∧
    (clearLines board).1 =
      List.replicate ((clearLines board).2) emptyRow ++
        board.filter (fun r => !(decide (RowFull r))) ∧
    ((∀ r ∈ board, ¬ RowFull r) → clearLines board = (board, 0)) ∧
    (∀ b3 : Board3, (∀ pl ∈ b3, pl.length = BOARD_HEIGHT) →
      ((∀ pl ∈ (clearLines3 b3).1, pl.length = BOARD_HEIGHT) ∧
       (clearLines3 b3).2 =
         (b3.map fun pl => (pl.filter fun r => decide (RowFull r)).length).sum ∧
       ((∀ pl ∈ b3, ∀ r ∈ pl, ¬ RowFull r) → clearLines3 b3 = (b3, 0)))) := by
  have hfe : ∀ l : Board,
      (l.filter fun r => !(isFullRow r)) = l.filter fun r => !(decide (RowFull r)) := by
    intro l
    apply List.filter_congr
    intro r _
    rw [isFullRow_eq_decide]
  have hce : ∀ l : Board,
      l.countP isFullRow = (l.filter fun r => decide (RowFull r)).length := by
    intro l
    rw [List.countP_eq_length_filter]
    congr 1
    apply List.filter_congr
    intro r _
    rw [isFullRow_eq_decide]
  have hbal : ∀ l : Board,
      (l.filter fun r => !(isFullRow r)).length + l.countP isFullRow = l.length :=
    fun l => length_filter_not_add_countP l isFullRow
  have hkle : ∀ l : Board, (l.filter fun r => !(isFullRow r)).length ≤ l.length :=
    fun l => List.length_filter_le _ _
  refine ⟨?_, ?_, ?_, ?_, ?_⟩
  · show (List.replicate _ emptyRow ++ _).length = BOARD_HEIGHT
    rw [List.length_append, List.length_replicate]
    have := hbal board
    have := hkle board
    omega
  · rw [clearLines_snd, hce]
  · have hb := hbal board
    have heq : BOARD_HEIGHT - (board.filter fun r => !(isFullRow r)).length
        = board.countP isFullRow := by omega
    show (List.replicate (BOARD_HEIGHT -
          (board.filter fun r => !(isFullRow r)).length) emptyRow ++
        board.filter fun r => !(isFullRow r))
      = List.replicate (board.countP isFullRow) emptyRow ++
        board.filter fun r => !(decide (RowFull r))
    rw [← hfe board, heq]
  · intro hnf
    have hfilt : (board.filter fun r => !(isFullRow r)) = board := by
      apply List.filter_eq_self.mpr
      intro r hr
      simp [Bool.not_eq_true', Bool.not_eq_true] at *
      exact Bool.not_eq_true _ ▸ (fun hc => hnf r hr ((isFullRow_iff r).mp hc))
    have hcnt : board.countP isFullRow = 0 := by
      apply List.countP_eq_zero.mpr
      intro r hr
      exact fun hc => hnf r hr ((isFullRow_iff r).mp hc)
    show (List.replicate _ emptyRow ++ _, board.countP isFullRow) = (board, 0)
    rw [hfilt, hcnt, hlen]
    simp
  · intro b3 hpl
    refine ⟨?_, ?_, ?_⟩
    · intro pl hmem
      obtain ⟨pl0, hpl0, rfl⟩ := List.mem_map.mp hmem
      rw [List.length_append, List.length_replicate]
      have := hbal pl0
      have := hkle pl0
      have := hpl pl0 hpl0
      omega
    · show (b3.map fun pl => pl.countP isFullRow).sum = _
      congr 1
      apply List.map_congr_left
      intro pl _
      exact hce pl
    · intro hnf
      have hplane : ∀ pl ∈ b3,
          (List.replicate (BOARD_HEIGHT - (pl.filter fun r => !(isFullRow r)).length)
            emptyRow ++ pl.filter fun r => !(isFullRow r)) = pl := by
        intro pl hm
        have hfilt : (pl.filter fun r => !(isFullRow r)) = pl := by
          apply List.filter_eq_self.mpr
          intro r hr
          simp only [Bool.not_eq_true']
          exact Bool.not_eq_true _ ▸
            (fun hc => hnf pl hm r hr ((isFullRow_iff r).mp hc))
        rw [hfilt, hpl pl hm]
        simp
      have hcnt : ∀ pl ∈ b3, pl.countP isFullRow = 0 := by
        intro pl hm
        apply List.countP_eq_zero.mpr
        intro r hr
        exact fun hc => hnf pl hm r hr ((isFullRow_iff r).mp hc)
      show (b3.map _, (b3.map _).sum) = (b3, 0)
      rw [Prod.mk.injEq]
      constructor
      · show b3.map _ = b3
        nth_rewrite 2 [← List.map_id b3]
        apply List.map_congr_left
        intro pl hm
        exact hplane pl hm
      · show (b3.map fun pl => pl.countP isFullRow).sum = 0
        rw [List.sum_eq_zero]
        intro n hn
        obtain ⟨pl, hm, rfl⟩ := List.mem_map.mp hn
        exact hcnt pl hm

def demoBoardC2 : Board :=
  List.replicate 19 emptyRow ++ [List.replicate 10 1]

/-- Witness for C2 at a concrete board with one full bottom row. -/
theorem c2_clearLines_correct_witness :
    (clearLines demoBoardC2).1.length = BOARD_HEIGHT ∧
    (clearLines demoBoardC2).2 =
      (demoBoardC2.filter fun r => decide (RowFull r)).length ∧
    (clearLines demoBoardC2).1 =
      List.replicate ((clearLines demoBoardC2).2) emptyRow ++
        demoBoardC2.filter (fun r => !(decide (RowFull r))) ∧
    ((∀ r ∈ demoBoardC2, ¬ RowFull r) → clearLines demoBoardC2 = (demoBoardC2, 0)) ∧
    (∀ b3 : Board3, (∀ pl ∈ b3, pl.length = BOARD_HEIGHT) →
      ((∀ pl ∈ (clearLines3 b3).1, pl.length = BOARD_HEIGHT) ∧
       (clearLines3 b3).2 =
         (b3.map fun pl => (pl.filter fun r => decide (RowFull r)).length).sum ∧
       ((∀ pl ∈ b3, ∀ r ∈ pl, ¬ RowFull r) → clearLines3 b3 = (b3, 0)))) :=
  c2_clearLines_correct demoBoardC2 (by decide)

/-! ## Lock sequence: scoring, leveling, speed (claims C3, C5) -/

lemma lockProgress_fst (sc lv sp k : Nat) :
    (lockProgress sc lv sp k).1 = sc + k * k * 100 + 10 := by
  simp only [lockProgress]
  split <;> rfl

lemma lockProgress_cross (sc lv sp k : Nat)
    (h : sc + k * k * 100 + 10 ≥ lv * LEVEL_THRESHOLD) :
    (lockProgress sc lv sp k).2 = (lv + 1, max (sp - SPEED_INCREMENT) 100) := by
  unfold lockProgress
  rw [if_pos h]

lemma lockProgress_nocross (sc lv sp k : Nat)
    (h : ¬ (sc + k * k * 100 + 10 ≥ lv * LEVEL_THRESHOLD)) :
    (lockProgress sc lv sp k).2 = (lv, sp) := by
  unfold lockProgress
  rw [if_neg h]

/-- On a lock, the numeric fields of the plain-variant `moveDown` follow
`lockProgress` in every promotion branch. -/
lemma moveDown_lock_fields (s : GameState) (p f1 f2 : Piece)
    (hp : s.piece = some p)
    (hlock : isValidMove { p with y := p.y + 1 } s.board = false) :
    (moveDown s f1 f2).score =
      (lockProgress s.score s.level s.speed
        (clearLines (mergePieceToBoard p s.board)).2).1 ∧
    (moveDown s f1 f2).level =
      (lockProgress s.score s.level s.speed
        (clearLines (mergePieceToBoard p s.board)).2).2.1 ∧
    (moveDown s f1 f2).speed =
      (lockProgress s.score s.level s.speed
        (clearLines (mergePieceToBoard p s.board)).2).2.2 ∧
    (moveDown s f1 f2).board = (clearLines (mergePieceToBoard p s.board)).1 := by
  unfold moveDown
  rw [hp]
  simp only [hlock, Bool.false_eq_true, if_false]
  cases s.nextPiece with
  | none =>
    by_cases hv : isValidMove f1 (clearLines (mergePieceToBoard p s.board)).1 = true
    · simp [hv]
    · simp [Bool.eq_false_iff.mpr hv]
  | some np => simp

/-- Same for the hold-variant `moveDown`. -/
lemma moveDownH_lock_fields (s : HoldState) (p f1 f2 : Piece)
    (hp : s.piece = some p)
    (hlock : isValidMove { p with y := p.y + 1 } s.board = false) :
    (moveDownH s f1 f2).score =
      (lockProgress s.score s.level s.speed
        (clearLines (mergePieceToBoard p s.board)).2).1 ∧
    (moveDownH s f1 f2).level =
      (lockProgress s.score s.level s.speed
        (clearLines (mergePieceToBoard p s.board)).2).2.1 ∧
    (moveDownH s f1 f2).speed =
      (lockProgress s.score s.level s.speed
        (clearLines (mergePieceToBoard p s.board)).2).2.2 ∧
    (moveDownH s f1 f2).board = (clearLines (mergePieceToBoard p s.board)).1 := by
  unfold moveDownH
  rw [hp]
  simp only [hlock, Bool.false_eq_true, if_false]
  cases s.nextPiece with
  | none =>
    by_cases hv : isValidMove f1 (clearLines (mergePieceToBoard p s.board)).1 = true
    · simp [promotedPair, hv]
    · simp [promotedPair, Bool.eq_false_iff.mpr hv]
  | some np =>
    by_cases hv : isValidMove np (clearLines (mergePieceToBoard p s.board)).1 = true
    · simp [promotedPair, hv]
    · simp [promotedPair, Bool.eq_false_iff.mpr hv]

/-- `hardDropH` always locks; its score is
`score + k*k*100 + 10 + (dropY - startY)` in every branch. -/
lemma hardDropH_score (s : HoldState) (p f1 f2 : Piece)
    (hp : s.piece = some p) :
    (hardDropH s f1 f2).score =
      s.score +
        (clearLines (mergePieceToBoard
          { p with y := getDropPosition p s.board } s.board)).2 *
        (clearLines (mergePieceToBoard
          { p with y := getDropPosition p s.board } s.board)).2 * 100 + 10 +
        (getDropPosition p s.board - p.y).toNat := by
  unfold hardDropH
  rw [hp]
  cases s.nextPiece with
  | none =>
    by_cases hv : isValidMove f1
        (clearLines (mergePieceToBoard
          { p with y := getDropPosition p s.board } s.board)).1 = true
    · simp [promotedPair, hv]
    · simp [promotedPair, Bool.eq_false_iff.mpr hv]
  | some np =>
    by_cases hv : isValidMove np
        (clearLines (mergePieceToBoard
          { p with y := getDropPosition p s.board } s.board)).1 = true
    · simp [promotedPair, hv]
    · simp [promotedPair, Bool.eq_false_iff.mpr hv]

/-- Claim C3: a lock clearing `k` lines increases the score by exactly
`k*k*100 + 10` (plain-variant `moveDown`), and a hard drop additionally
adds the rows traversed during the drop, final `y` minus starting `y`
(hold-variant `hardDrop`). -/
theorem c3_score_delta (s : GameState) (sh : HoldState) (p q f1 f2 : Piece)
    (hp : s.piece = some p)
    (hlock : isValidMove { p with y := p.y + 1 } s.board = false)
    (hq : sh.piece = some q) :
    (moveDown s f1 f2).score =
      s.score + (clearLines (mergePieceToBoard p s.board)).2 *
        (clearLines (mergePieceToBoard p s.board)).2 * 100 + 10 ∧
    (hardDropH sh f1 f2).score =
      sh.score +
        (clearLines (mergePieceToBoard
          { q with y := getDropPosition q sh.board } sh.board)).2 *
        (clearLines (mergePieceToBoard
          { q with y := getDropPosition q sh.board } sh.board)).2 * 100 + 10 +
        (getDropPosition q sh.board - q.y).toNat := by
  refine ⟨?_, hardDropH_score sh q f1 f2 hq⟩
  rw [(moveDown_lock_fields s p f1 f2 hp hlock).1, lockProgress_fst]

/-! Concrete demo states -/

def emptyBoard : Board := List.replicate BOARD_HEIGHT emptyRow

def pieceI : Piece := createNewPiece 0

def pieceO : Piece := createNewPiece 1

def pieceI19 : Piece := { pieceI with y := 19 }

def c3_state : GameState :=
  { board := emptyBoard, piece := some pieceI19, nextPiece := some pieceO,
    score := 0, level := 1, gameOver := false, speed := 500 }

def c3_hold : HoldState :=
  { board := emptyBoard, piece := some pieceI, nextPiece := some pieceO,
    score := 0, level := 1, gameOver := false, speed := 500,
    storedPiece := none, canStore := true, highScore := 0 }

/-- Witness for C3 at a concrete lock (0 lines cleared, +10) and a
concrete hard drop from spawn (+10 and +19 traversal bonus). -/
theorem c3_score_delta_witness :
    (c3_state.piece = some pieceI19 ∧
     isValidMove { pieceI19 with y := pieceI19.y + 1 } c3_state.board = false ∧
     c3_hold.piece = some pieceI) ∧
    ((moveDown c3_state pieceO pieceO).score =
      c3_state.score + (clearLines (mergePieceToBoard pieceI19 c3_state.board)).2 *
        (clearLines (mergePieceToBoard pieceI19 c3_state.board)).2 * 100 + 10 ∧
     (hardDropH c3_hold pieceO pieceO).score =
      c3_hold.score +
        (clearLines (mergePieceToBoard
          { pieceI with y := getDropPosition pieceI c3_hold.board } c3_hold.board)).2 *
        (clearLines (mergePieceToBoard
          { pieceI with y := getDropPosition pieceI c3_hold.board } c3_hold.board)).2 * 100 + 10 +
        (getDropPosition pieceI c3_hold.board - pieceI.y).toNat) :=
  ⟨⟨by decide, by decide, by decide⟩,
    c3_score_delta c3_state c3_hold pieceI19 pieceI pieceO pieceO
      (by decide) (by decide) (by decide)⟩

/-! ## Claim C5: leveling and gravity interval -/

lemma lockProgress_level_ge (sc lv sp k : Nat) :
    lv ≤ (lockProgress sc lv sp k).2.1 := by
  simp only [lockProgress]
  split <;> simp

lemma moveDown_level_ge (s : GameState) (f1 f2 : Piece) :
    s.level ≤ (moveDown s f1 f2).level := by
  unfold moveDown
  cases s.piece with
  | none => simp
  | some p =>
    by_cases hv : isValidMove { p with y := p.y + 1 } s.board = true
    · simp [hv]
    · simp only [Bool.eq_false_iff.mpr hv, Bool.false_eq_true, if_false]
      cases s.nextPiece with
      | none =>
        by_cases hv2 : isValidMove f1 (clearLines (mergePieceToBoard p s.board)).1 = true
        · simp only [hv2, Bool.not_true, Bool.false_eq_true, if_false]
          exact lockProgress_level_ge _ _ _ _
        · simp only [Bool.eq_false_iff.mpr hv2, Bool.not_false, if_true]
          exact lockProgress_level_ge _ _ _ _
      | some np =>
        simp only
        exact lockProgress_level_ge _ _ _ _

lemma moveSideways_level (s : GameState) (d : Bool) :
    (moveSideways s d).level = s.level := by
  unfold moveSideways
  cases s.piece with
  | none => rfl
  | some p =>
    dsimp only
    split <;> split <;> rfl

lemma rotatePlain_level (s : GameState) :
    (rotatePlain s).level = s.level := by
  unfold rotatePlain
  cases s.piece with
  | none => rfl
  | some p =>
    dsimp only
    split <;> rfl

lemma handleIntent_level_ge (s : GameState) (i : Intent) (f1 f2 : Piece) :
    s.level ≤ (handleIntent s i f1 f2).level := by
  unfold handleIntent
  by_cases hg : s.gameOver = true
  · simp [hg]
  · simp only [Bool.eq_false_iff.mpr hg, Bool.false_eq_true, if_false]
    cases i with
    | down => exact moveDown_level_ge s f1 f2
    | left => exact le_of_eq (moveSideways_level s true).symm
    | right => exact le_of_eq (moveSideways_level s false).symm
    | rot => exact le_of_eq (rotatePlain_level s).symm

/-- Claim C5 (amended): on a lock, when the new score reaches
`level * LEVEL_THRESHOLD` the level increments by exactly one and the
gravity interval becomes `max (speed - SPEED_INCREMENT) 100`; it strictly
decreases only while above the floor 100 (at the floor it stays 100);
without a crossing, level and interval are unchanged; the interval never
drops below 100, and the level never decreases under any intent. -/
theorem c5_level_speed (s : GameState) (p f1 f2 : Piece) (i : Intent)
    (hp : s.piece = some p)
    (hlock : isValidMove { p with y := p.y + 1 } s.board = false) :
    (s.score + (clearLines (mergePieceToBoard p s.board)).2 *
        (clearLines (mergePieceToBoard p s.board)).2 * 100 + 10 ≥
        s.level * LEVEL_THRESHOLD →
      (moveDown s f1 f2).level = s.level + 1 ∧
      (moveDown s f1 f2).speed = max (s.speed - SPEED_INCREMENT) 100 ∧
      (100 < s.speed → (moveDown s f1 f2).speed < s.speed) ∧
      (s.speed ≤ 100 → (moveDown s f1 f2).speed = 100)) ∧
    (s.score + (clearLines (mergePieceToBoard p s.board)).2 *
        (clearLines (mergePieceToBoard p s.board)).2 * 100 + 10 <
        s.level * LEVEL_THRESHOLD →
      (moveDown s f1 f2).level = s.level ∧
      (moveDown s f1 f2).speed = s.speed) ∧
    (100 ≤ s.speed → 100 ≤ (moveDown s f1 f2).speed) ∧
    s.level ≤ (handleIntent s i f1 f2).level := by
  obtain ⟨-, hlev, hspd, -⟩ := moveDown_lock_fields s p f1 f2 hp hlock
  refine ⟨?_, ?_, ?_, handleIntent_level_ge s i f1 f2⟩
  · intro hcross
    rw [hlev, hspd, lockProgress_cross _ _ _ _ hcross]
    refine ⟨rfl, rfl, ?_, ?_⟩ <;>
      intro h <;>
      simp only [SPEED_INCREMENT, Nat.max_def] <;>
      split <;> omega
  · intro hncross
    rw [hlev, hspd, lockProgress_nocross _ _ _ _ (by omega)]
    exact ⟨rfl, rfl⟩
  · intro hfloor
    rw [hspd]
    simp only [lockProgress]
    split
    · simp
    · simpa using hfloor

def c5_state : GameState :=
  { board := emptyBoard, piece := some pieceI19, nextPiece := some pieceO,
    score := 8990, level := 9, gameOver := false, speed := 100 }

/-- Claim C5 counterexample: a lock crossing the level-9 threshold while
the interval sits at the floor 100 does increment the level but does not
strictly decrease the interval — it stays at 100, refuting "the interval
strictly decreases at each such crossing". -/
theorem c5_counterexample :
    (moveDown c5_state pieceO pieceO).level = c5_state.level + 1 ∧
    (moveDown c5_state pieceO pieceO).speed = c5_state.speed ∧
    c5_state.speed = 100 := by decide

/-- Witness for C5 at a concrete crossing lock at the speed floor. -/
theorem c5_level_speed_witness :
    (c5_state.piece = some pieceI19 ∧
     isValidMove { pieceI19 with y := pieceI19.y + 1 } c5_state.board = false) ∧
    ((c5_state.score + (clearLines (mergePieceToBoard pieceI19 c5_state.board)).2 *
        (clearLines (mergePieceToBoard pieceI19 c5_state.board)).2 * 100 + 10 ≥
        c5_state.level * LEVEL_THRESHOLD →
      (moveDown c5_state pieceO pieceO).level = c5_state.level + 1 ∧
      (moveDown c5_state pieceO pieceO).speed =
        max (c5_state.speed - SPEED_INCREMENT) 100 ∧
      (100 < c5_state.speed → (moveDown c5_state pieceO pieceO).speed < c5_state.speed) ∧
      (c5_state.speed ≤ 100 → (moveDown c5_state pieceO pieceO).speed = 100)) ∧
    (c5_state.score + (clearLines (mergePieceToBoard pieceI19 c5_state.board)).2 *
        (clearLines (mergePieceToBoard pieceI19 c5_state.board)).2 * 100 + 10 <
        c5_state.level * LEVEL_THRESHOLD →
      (moveDown c5_state pieceO pieceO).level = c5_state.level ∧
      (moveDown c5_state pieceO pieceO).speed = c5_state.speed) ∧
    (100 ≤ c5_state.speed → 100 ≤ (moveDown c5_state pieceO pieceO).speed) ∧
    c5_state.level ≤ (handleIntent c5_state Intent.down pieceO pieceO).level) :=
  ⟨⟨by decide, by decide⟩,
   c5_level_speed c5_state pieceI19 pieceO pieceO Intent.down (by decide) (by decide)⟩

/-! ## Claim C4: spawn validation and game-over -/

/-- Claim C4 (amended): on a lock, the hold-enabled variant validates the
promoted piece (pre-generated next or freshly drawn) against the
post-clear board, setting game-over exactly when validation fails; the
plain 2D variant validates only a freshly drawn piece — a pre-generated
next piece is installed without validation and game-over is unchanged.
Once game-over is set, every intent is ignored in both variants. -/
theorem c4_spawn_validation (s : GameState) (sh : HoldState)
    (p q np f1 f2 : Piece) (i : Intent) (j : IntentH)
    (hp : s.piece = some p)
    (hlock : isValidMove { p with y := p.y + 1 } s.board = false)
    (hq : sh.piece = some q)
    (hlockq : isValidMove { q with y := q.y + 1 } sh.board = false) :
    (s.nextPiece = some np →
      (moveDown s f1 f2).piece = some np ∧
      (moveDown s f1 f2).gameOver = s.gameOver) ∧
    (s.nextPiece = none →
      (isValidMove f1 (clearLines (mergePieceToBoard p s.board)).1 = false →
        (moveDown s f1 f2).gameOver = true) ∧
      (isValidMove f1 (clearLines (mergePieceToBoard p s.board)).1 = true →
        (moveDown s f1 f2).piece = some f1 ∧
        (moveDown s f1 f2).gameOver = s.gameOver)) ∧
    (sh.nextPiece = some np →
      (isValidMove np (clearLines (mergePieceToBoard q sh.board)).1 = false →
        (moveDownH sh f1 f2).gameOver = true) ∧
      (isValidMove np (clearLines (mergePieceToBoard q sh.board)).1 = true →
        (moveDownH sh f1 f2).piece = some np ∧
        (moveDownH sh f1 f2).gameOver = sh.gameOver)) ∧
    (sh.nextPiece = none →
      (isValidMove f1 (clearLines (mergePieceToBoard q sh.board)).1 = false →
        (moveDownH sh f1 f2).gameOver = true) ∧
      (isValidMove f1 (clearLines (mergePieceToBoard q sh.board)).1 = true →
        (moveDownH sh f1 f2).piece = some f1 ∧
        (moveDownH sh f1 f2).gameOver = sh.gameOver)) ∧
    (s.gameOver = true → handleIntent s i f1 f2 = s) ∧
    (sh.gameOver = true → handleIntentH sh j f1 f2 = sh) := by
  refine ⟨?_, ?_, ?_, ?_, ?_, ?_⟩
  · intro hnp
    unfold moveDown
    rw [hp]
    simp only [hlock, Bool.false_eq_true, if_false]
    rw [hnp]
    exact ⟨rfl, rfl⟩
  · intro hnp
    unfold moveDown
    rw [hp]
    simp only [hlock, Bool.false_eq_true, if_false]
    rw [hnp]
    constructor
    · intro hinv
      simp [hinv]
    · intro hval
      simp [hval]
  · intro hnp
    unfold moveDownH
    rw [hq]
    simp only [hlockq, Bool.false_eq_true, if_false]
    rw [hnp]
    constructor
    · intro hinv
      simp [promotedPair, hinv]
    · intro hval
      simp [promotedPair, hval]
  · intro hnp
    unfold moveDownH
    rw [hq]
    simp only [hlockq, Bool.false_eq_true, if_false]
    rw [hnp]
    constructor
    · intro hinv
      simp [promotedPair, hinv]
    · intro hval
      simp [promotedPair, hval]
  · intro hgo
    unfold handleIntent
    rw [hgo]
    rfl
  · intro hgo
    unfold handleIntentH
    rw [hgo]
    rfl

def pieceI0x19 : Piece := { pieceI with x := 0, y := 19 }

def c4_board : Board := [0, 0, 0, 0, 2, 2, 0, 0, 0, 0] :: List.replicate 19 emptyRow

def c4_state : GameState :=
  { board := c4_board, piece := some pieceI0x19, nextPiece := some pieceO,
    score := 0, level := 1, gameOver := false, speed := 500 }

/-- Claim C4 counterexample: in the plain 2D variant, a lock promotes the
pre-generated next piece even though it is invalid on the post-clear board
(its spawn cells are occupied), and game-over is not set — refuting "the
promoted piece is validated before installation, and the game-over flag is
set exactly when that validation fails". -/
theorem c4_counterexample :
    isValidMove pieceO
      (clearLines (mergePieceToBoard pieceI0x19 c4_state.board)).1 = false ∧
    (moveDown c4_state pieceO pieceO).gameOver = false ∧
    (moveDown c4_state pieceO pieceO).piece = some pieceO := by decide

def c4_hold : HoldState :=
  { board := c4_board, piece := some pieceI0x19, nextPiece := some pieceO,
    score := 0, level := 1, gameOver := false, speed := 500,
    storedPiece := none, canStore := true, highScore := 0 }

/-- Witness for C4 at concrete locking states in both variants. -/
theorem c4_spawn_validation_witness :
    (c4_state.piece = some pieceI0x19 ∧
     isValidMove { pieceI0x19 with y := pieceI0x19.y + 1 } c4_state.board = false ∧
     c4_hold.piece = some pieceI0x19 ∧
     isValidMove { pieceI0x19 with y := pieceI0x19.y + 1 } c4_hold.board = false) ∧
    ((c4_state.nextPiece = some pieceO →
      (moveDown c4_state pieceO pieceO).piece = some pieceO ∧
      (moveDown c4_state pieceO pieceO).gameOver = c4_state.gameOver) ∧
    (c4_state.nextPiece = none →
      (isValidMove pieceO (clearLines (mergePieceToBoard pieceI0x19 c4_state.board)).1 = false →
        (moveDown c4_state pieceO pieceO).gameOver = true) ∧
      (isValidMove pieceO (clearLines (mergePieceToBoard pieceI0x19 c4_state.board)).1 = true →
        (moveDown c4_state pieceO pieceO).piece = some pieceO ∧
        (moveDown c4_state pieceO pieceO).gameOver = c4_state.gameOver)) ∧
    (c4_hold.nextPiece = some pieceO →
      (isValidMove pieceO (clearLines (mergePieceToBoard pieceI0x19 c4_hold.board)).1 = false →
        (moveDownH c4_hold pieceO pieceO).gameOver = true) ∧
      (isValidMove pieceO (clearLines (mergePieceToBoard pieceI0x19 c4_hold.board)).1 = true →
        (moveDownH c4_hold pieceO pieceO).piece = some pieceO ∧
        (moveDownH c4_hold pieceO pieceO).gameOver = c4_hold.gameOver)) ∧
    (c4_hold.nextPiece = none →
      (isValidMove pieceO (clearLines (mergePieceToBoard pieceI0x19 c4_hold.board)).1 = false →
        (moveDownH c4_hold pieceO pieceO).gameOver = true) ∧
      (isValidMove pieceO (clearLines (mergePieceToBoard pieceI0x19 c4_hold.board)).1 = true →
        (moveDownH c4_hold pieceO pieceO).piece = some pieceO ∧
        (moveDownH c4_hold pieceO pieceO).gameOver = c4_hold.gameOver)) ∧
    (c4_state.gameOver = true → handleIntent c4_state Intent.down pieceO pieceO = c4_state) ∧
    (c4_hold.gameOver = true → handleIntentH c4_hold IntentH.down pieceO pieceO = c4_hold)) :=
  ⟨⟨by decide, by decide, by decide, by decide⟩,
   c4_spawn_validation c4_state c4_hold pieceI0x19 pieceI0x19 pieceO pieceO pieceO
     Intent.down IntentH.down (by decide) (by decide) (by decide) (by decide)⟩

/-! ## Claim C6: rotation with kick resolution -/

lemma tryKicks_eq_find (np : Piece) (b : Board) (l : List (Int × Int)) :
    tryKicks np b l =
      (l.find? fun k => isValidMove (kickedPiece np k) b).map (kickedPiece np) := by
  induction l with
  | nil => rfl
  | cons k rest ih =>
    unfold tryKicks
    by_cases hv : isValidMove (kickedPiece np k) b = true
    · rw [if_pos hv]
      have hfind : List.find? (fun k => isValidMove (kickedPiece np k) b) (k :: rest)
          = some k := List.find?_cons_of_pos _ hv
      rw [hfind]
      rfl
    · rw [if_neg hv, ih]
      have hfind : List.find? (fun k => isValidMove (kickedPiece np k) b) (k :: rest)
          = List.find? (fun k => isValidMove (kickedPiece np k) b) rest :=
        List.find?_cons_of_neg _ (by simpa using hv)
      rw [hfind]

/-- Claim C6: in the hold-enabled variant, a valid straightforward
rotation (transpose then reverse each row) is applied directly; when it is
invalid the kick offsets (1,0), (-1,0), (0,-1), (1,-1), (-1,-1) are tried
in exactly that order and the first valid one is accepted, the piece
staying unchanged when none validates; the rotation-only variants silently
reject an invalid rotation with no kicks. -/
theorem c6_rotation_kicks (sh : HoldState) (s : GameState) (q p : Piece)
    (hq : sh.piece = some q) (hp : s.piece = some p) :
    (isValidMove (rotatedPiece q) sh.board = true →
      rotateH sh = { sh with piece := some (rotatedPiece q) }) ∧
    (isValidMove (rotatedPiece q) sh.board = false →
      rotateH sh =
        ((kicks.find? fun k =>
            isValidMove (kickedPiece (rotatedPiece q) k) sh.board).map
          (fun k => { sh with piece := some (kickedPiece (rotatedPiece q) k) })).getD
          sh) ∧
    (isValidMove (rotatedPiece p) s.board = false → rotatePlain s = s) ∧
    kicks = [(1, 0), (-1, 0), (0, -1), (1, -1), (-1, -1)] := by
  refine ⟨?_, ?_, ?_, rfl⟩
  · intro hrot
    unfold rotateH
    rw [hq]
    simp [hrot]
  · intro hrot
    unfold rotateH
    rw [hq]
    simp only [hrot, Bool.false_eq_true, if_false]
    rw [tryKicks_eq_find]
    cases hf : kicks.find? fun k =>
        isValidMove (kickedPiece (rotatedPiece q) k) sh.board with
    | none => simp
    | some k => simp
  · intro hrot
    unfold rotatePlain
    rw [hp]
    simp [hrot]

def c6_hold : HoldState := { c3_hold with piece := some pieceI19 }

/-- Witness for C6: a hold state whose rotation is blocked at the floor
(every kick also fails, so the piece is unchanged) and a plain state with
the same blocked rotation. -/
theorem c6_rotation_kicks_witness :
    (c6_hold.piece = some pieceI19 ∧ c3_state.piece = some pieceI19) ∧
    ((isValidMove (rotatedPiece pieceI19) c6_hold.board = true →
      rotateH c6_hold = { c6_hold with piece := some (rotatedPiece pieceI19) }) ∧
    (isValidMove (rotatedPiece pieceI19) c6_hold.board = false →
      rotateH c6_hold =
        ((kicks.find? fun k =>
            isValidMove (kickedPiece (rotatedPiece pieceI19) k) c6_hold.board).map
          (fun k => { c6_hold with
            piece := some (kickedPiece (rotatedPiece pieceI19) k) })).getD
          c6_hold) ∧
    (isValidMove (rotatedPiece pieceI19) c3_state.board = false →
      rotatePlain c3_state = c3_state) ∧
    kicks = [(1, 0), (-1, 0), (0, -1), (1, -1), (-1, -1)]) :=
  ⟨⟨by decide, by decide⟩,
   c6_rotation_kicks c6_hold c3_state pieceI19 pieceI19 (by decide) (by decide)⟩

/-! ## Claim C7: the hold reuse lock (`canStore`) -/

lemma moveSidewaysH_canStore (s : HoldState) (d : Bool) :
    (moveSidewaysH s d).canStore = s.canStore := by
  unfold moveSidewaysH
  cases s.piece with
  | none => rfl
  | some p =>
    dsimp only
    split <;> split <;> rfl

lemma rotateH_canStore (s : HoldState) :
    (rotateH s).canStore = s.canStore := by
  unfold rotateH
  cases s.piece with
  | none => rfl
  | some p =>
    dsimp only
    split
    · rfl
    · split <;> rfl

/-- Claim C7: after any store operation `canStore` is false; a second
store before the next lock-and-advance changes nothing; no lateral move
or rotation changes `canStore`; a plain descent keeps it; it is reset to
true exactly by a lock-and-advance (soft or hard) whose promoted piece
validates, and left untouched when the promotion fails (game over). -/
theorem c7_can_store_lifecycle (sh : HoldState) (q f f1 f2 : Piece) (d : Bool)
    (hq : sh.piece = some q) :
    (sh.canStore = true → (storePieceH sh f).canStore = false) ∧
    (sh.canStore = false → storePieceH sh f = sh) ∧
    (moveSidewaysH sh d).canStore = sh.canStore ∧
    (rotateH sh).canStore = sh.canStore ∧
    (isValidMove { q with y := q.y + 1 } sh.board = true →
      (moveDownH sh f1 f2).canStore = sh.canStore) ∧
    (isValidMove { q with y := q.y + 1 } sh.board = false →
      (isValidMove (promotedPair sh.nextPiece f1 f2).1
          (clearLines (mergePieceToBoard q sh.board)).1 = true →
        (moveDownH sh f1 f2).canStore = true) ∧
      (isValidMove (promotedPair sh.nextPiece f1 f2).1
          (clearLines (mergePieceToBoard q sh.board)).1 = false →
        (moveDownH sh f1 f2).canStore = sh.canStore)) ∧
    (isValidMove (promotedPair sh.nextPiece f1 f2).1
        (clearLines (mergePieceToBoard
          { q with y := getDropPosition q sh.board } sh.board)).1 = true →
      (hardDropH sh f1 f2).canStore = true) ∧
    (isValidMove (promotedPair sh.nextPiece f1 f2).1
        (clearLines (mergePieceToBoard
          { q with y := getDropPosition q sh.board } sh.board)).1 = false →
      (hardDropH sh f1 f2).canStore = sh.canStore) := by
  refine ⟨?_, ?_, moveSidewaysH_canStore sh d, rotateH_canStore sh, ?_, ?_, ?_, ?_⟩
  · intro hcs
    unfold storePieceH
    rw [hcs, hq]
    simp only [Bool.not_true, Bool.false_eq_true, if_false]
    cases sh.storedPiece with
    | none =>
      cases sh.nextPiece with
      | none => rfl
      | some np => rfl
    | some st =>
      dsimp only
      split <;> rfl
  · intro hcs
    unfold storePieceH
    rw [hcs]
    rfl
  · intro hv
    unfold moveDownH
    rw [hq]
    simp [hv]
  · intro hlock
    unfold moveDownH
    rw [hq]
    simp only [hlock, Bool.false_eq_true, if_false]
    constructor
    · intro hval
      simp [hval]
    · intro hinv
      simp [hinv]
  · intro hval
    unfold hardDropH
    rw [hq]
    simp [hval]
  · intro hinv
    unfold hardDropH
    rw [hq]
    simp [hinv]

/-- Witness for C7 at a concrete hold state (active I piece at the floor,
hold available). -/
theorem c7_can_store_lifecycle_witness :
    c6_hold.piece = some pieceI19 ∧
    ((c6_hold.canStore = true → (storePieceH c6_hold pieceO).canStore = false) ∧
    (c6_hold.canStore = false → storePieceH c6_hold pieceO = c6_hold) ∧
    (moveSidewaysH c6_hold true).canStore = c6_hold.canStore ∧
    (rotateH c6_hold).canStore = c6_hold.canStore ∧
    (isValidMove { pieceI19 with y := pieceI19.y + 1 } c6_hold.board = true →
      (moveDownH c6_hold pieceO pieceO).canStore = c6_hold.canStore) ∧
    (isValidMove { pieceI19 with y := pieceI19.y + 1 } c6_hold.board = false →
      (isValidMove (promotedPair c6_hold.nextPiece pieceO pieceO).1
          (clearLines (mergePieceToBoard pieceI19 c6_hold.board)).1 = true →
        (moveDownH c6_hold pieceO pieceO).canStore = true) ∧
      (isValidMove (promotedPair c6_hold.nextPiece pieceO pieceO).1
          (clearLines (mergePieceToBoard pieceI19 c6_hold.board)).1 = false →
        (moveDownH c6_hold pieceO pieceO).canStore = c6_hold.canStore)) ∧
    (isValidMove (promotedPair c6_hold.nextPiece pieceO pieceO).1
        (clearLines (mergePieceToBoard
          { pieceI19 with y := getDropPosition pieceI19 c6_hold.board }
          c6_hold.board)).1 = true →
      (hardDropH c6_hold pieceO pieceO).canStore = true) ∧
    (isValidMove (promotedPair c6_hold.nextPiece pieceO pieceO).1
        (clearLines (mergePieceToBoard
          { pieceI19 with y := getDropPosition pieceI19 c6_hold.board }
          c6_hold.board)).1 = false →
      (hardDropH c6_hold pieceO pieceO).canStore = c6_hold.canStore)) :=
  ⟨by decide,
   c7_can_store_lifecycle c6_hold pieceI19 pieceO pieceO pieceO true (by decide)⟩

/-! ## Claim C10: blocked hold swap still consumes the hold -/

/-- Claim C10: when hold is available, a piece is held, and the held piece
is invalid at its spawn position, `storePiece` changes nothing except
setting `canStore` to false — the hold opportunity is consumed with no
swap. -/
theorem c10_store_blocked (sh : HoldState) (q r f : Piece)
    (hcs : sh.canStore = true) (hq : sh.piece = some q)
    (hr : sh.storedPiece = some r)
    (hinv : isValidMove { r with x := spawnX r.shape, y := 0 } sh.board = false) :
    storePieceH sh f = { sh with canStore := false } := by
  unfold storePieceH
  rw [hcs, hq, hr]
  simp only [Bool.not_true, Bool.false_eq_true, if_false]
  simp [hinv]

def fullRow : Row := List.replicate 10 1

def c10_hold : HoldState :=
  { board := fullRow :: fullRow :: List.replicate 18 emptyRow,
    piece := some pieceI19, nextPiece := some pieceO,
    score := 0, level := 1, gameOver := false, speed := 500,
    storedPiece := some pieceO, canStore := true, highScore := 0 }

/-- Witness for C10: the held O piece cannot respawn on a board whose top
two rows are full, so store only consumes `canStore`. -/
theorem c10_store_blocked_witness :
    (c10_hold.canStore = true ∧ c10_hold.piece = some pieceI19 ∧
     c10_hold.storedPiece = some pieceO ∧
     isValidMove { pieceO with x := spawnX pieceO.shape, y := 0 }
       c10_hold.board = false) ∧
    storePieceH c10_hold pieceI = { c10_hold with canStore := false } :=
  ⟨⟨by decide, by decide, by decide, by decide⟩,
   c10_store_blocked c10_hold pieceI19 pieceO pieceI
     (by decide) (by decide) (by decide) (by decide)⟩

/-! ## Claim C8: hard drop refines iterated soft drops -/

/-- The shape has at least one occupied sub-cell (true of every catalog
shape; rules out the degenerate shape for which the source's
`getDropPosition` loop would not terminate). -/
def hasCell (p : Piece) : Bool :=
  (List.range p.shape.length).any fun dy =>
    (List.range (p.shape.getD dy []).length).any fun dx =>
      decide (shapeCell p.shape dy dx ≠ 0)

/-- Any valid position of a non-empty shape lies above the floor. -/
lemma valid_y_le (p : Piece) (b : Board) (k : Int)
    (hocc : hasCell p = true)
    (hv : isValidMove { p with y := k } b = true) : k ≤ 19 := by
  have h := hocc
  simp only [hasCell, List.any_eq_true, List.mem_range, decide_eq_true_eq] at h
  obtain ⟨dy, hdy, dx, hdx, hne⟩ := h
  by_contra hk
  push_neg at hk
  have hout : OutOfPlay { p with y := k } b := by
    refine ⟨dy, dx, hdy, hdx, hne, Or.inr (Or.inr (Or.inl ?_))⟩
    show (BOARD_HEIGHT : Int) ≤ k + dy
    simp only [BOARD_HEIGHT]
    omega
  rw [← isValidMove_false_iff] at hout
  rw [hv] at hout
  simp at hout

lemma dropGo_ge (p : Piece) (b : Board) (n : Nat) (y : Int) :
    y ≤ dropGo p b n y := by
  induction n generalizing y with
  | zero => simp [dropGo]
  | succ n ih =>
    simp only [dropGo]
    split
    · exact le_trans (by omega) (ih (y + 1))
    · exact le_refl y

lemma dropGo_chain (p : Piece) (b : Board) (n : Nat) (y : Int) :
    ∀ k : Int, y < k → k ≤ dropGo p b n y →
      isValidMove { p with y := k } b = true := by
  induction n generalizing y with
  | zero =>
    intro k h1 h2
    simp only [dropGo] at h2
    omega
  | succ n ih =>
    intro k h1 h2
    simp only [dropGo] at h2
    by_cases hv : isValidMove { p with y := y + 1 } b = true
    · rw [if_pos hv] at h2
      by_cases hk : k = y + 1
      · rw [hk]
        exact hv
      · exact ih (y + 1) k (by omega) h2
    · rw [if_neg hv] at h2
      omega

lemma dropGo_stop (p : Piece) (b : Board) (n : Nat) (y : Int) :
    dropGo p b n y = y + n ∨
      isValidMove { p with y := dropGo p b n y + 1 } b = false := by
  induction n generalizing y with
  | zero => left; simp [dropGo]
  | succ n ih =>
    simp only [dropGo]
    by_cases hv : isValidMove { p with y := y + 1 } b = true
    · rw [if_pos hv]
      rcases ih (y + 1) with h | h
      · left
        omega
      · right
        exact h
    · rw [if_neg hv]
      right
      exact Bool.eq_false_iff.mpr hv

/-- `getDropPosition` really is the largest vertical coordinate reachable
by valid unit descents: below the start everything in the chain validates
and the next step down does not. -/
lemma getDropPosition_spec (p : Piece) (b : Board)
    (hocc : hasCell p = true) (hval : isValidMove p b = true) :
    p.y ≤ getDropPosition p b ∧
    (∀ k : Int, p.y < k → k ≤ getDropPosition p b →
      isValidMove { p with y := k } b = true) ∧
    isValidMove { p with y := getDropPosition p b + 1 } b = false := by
  have hy : p.y ≤ 19 := valid_y_le p b p.y hocc hval
  have hfuel : (((BOARD_HEIGHT : Int) - p.y).toNat : Int) = 20 - p.y := by
    simp only [BOARD_HEIGHT]
    omega
  refine ⟨dropGo_ge p b _ p.y, dropGo_chain p b _ p.y, ?_⟩
  rcases dropGo_stop p b ((BOARD_HEIGHT : Int) - p.y).toNat p.y with he | hf
  · exfalso
    have h20 : dropGo p b ((BOARD_HEIGHT : Int) - p.y).toNat p.y = 20 := by
      rw [he, hfuel]
      omega
    have hvalid20 : isValidMove { p with y := (20 : Int) } b = true := by
      refine dropGo_chain p b _ p.y 20 (by omega) (by rw [h20])
    have := valid_y_le p b 20 hocc hvalid20
    omega
  · exact hf

/-- `dropGo` ignores the piece's own `y` field (the probe `y` is explicit). -/
lemma dropGo_set_y (p : Piece) (w : Int) (b : Board) (n : Nat) (z : Int) :
    dropGo { p with y := w } b n z = dropGo p b n z := by
  induction n generalizing z with
  | zero => rfl
  | succ n ih =>
    simp only [dropGo]
    have hrec : ({ { p with y := w } with y := z + 1 } : Piece)
        = { p with y := z + 1 } := rfl
    rw [hrec]
    split
    · exact ih (z + 1)
    · rfl

/-- Iterated single-step soft drops land exactly at `dropGo`'s fixed point
and lock there. -/
lemma softDropLock_eq (b : Board) (n : Nat) (p : Piece) :
    softDropLock b n p =
      clearLines (mergePieceToBoard { p with y := dropGo p b n p.y } b) := by
  induction n generalizing p with
  | zero => rfl
  | succ n ih =>
    simp only [softDropLock, dropGo]
    by_cases hv : isValidMove { p with y := p.y + 1 } b = true
    · rw [if_pos hv, if_pos hv, ih { p with y := p.y + 1 }, dropGo_set_y]
    · rw [if_neg hv, if_neg hv]

/-- Embeds `moveDown` of `tetris-3d.tsx`: same descent/lock sequence as
the plain variant, but the pre-generated next piece is validated before
installation (lines 127-133), like the hold-enabled variant. -/
def moveDown3d (s : GameState) (f1 f2 : Piece) : GameState :=
  match s.piece with
  | none => s
  | some p =>
    let down := { p with y := p.y + 1 }
    if isValidMove down s.board then { s with piece := some down }
    else
      let cleared := clearLines (mergePieceToBoard p s.board)
      let prog := lockProgress s.score s.level s.speed cleared.2
      let promoted := promotedPair s.nextPiece f1 f2
      if !(isValidMove promoted.1 cleared.1) then
        { s with board := cleared.1, score := prog.1, level := prog.2.1,
                 speed := prog.2.2, gameOver := true }
      else
        { s with board := cleared.1, score := prog.1, level := prog.2.1,
                 speed := prog.2.2, piece := some promoted.1,
                 nextPiece := some promoted.2 }

/-- Embeds `hardDrop` of `tetris-3d.tsx` (lines 171-179) together with the
React batched-update semantics it runs under: the handler queues
`setPiece` at the drop position and then calls `moveDown()`, a closure
that still captures the pre-drop `piece` and `board`; state updates apply
in call order, so whenever `moveDown` itself calls `setPiece` (a valid
descent of the stale piece, or a validated promotion after a lock) that
later update wins over the drop's, and only on the lock-with-failed-
promotion path (which queues no `setPiece`) does the drop's piece survive
- where the piece is already stuck, so the drop position is its current
row. -/
def hardDrop3d (s : GameState) (f1 f2 : Piece) : GameState :=
  match s.piece with
  | none => s
  | some p =>
    let dropped : Piece := { p with y := getDropPosition p s.board }
    let m := moveDown3d s f1 f2
    if isValidMove { p with y := p.y + 1 } s.board then m
    else
      if !(isValidMove (promotedPair s.nextPiece f1 f2).1
            (clearLines (mergePieceToBoard p s.board)).1) then
        { m with piece := some dropped }
      else m

/-- A stuck piece's drop position is its current row. -/
lemma getDropPosition_of_stuck (p : Piece) (b : Board)
    (h : isValidMove { p with y := p.y + 1 } b = false) :
    getDropPosition p b = p.y := by
  unfold getDropPosition
  cases hn : ((BOARD_HEIGHT : Int) - p.y).toNat with
  | zero => rfl
  | succ n => simp only [dropGo, h, Bool.false_eq_true, if_false]

/-- The stale-closure `hardDrop` of `tetris-3d.tsx` collapses to a single
soft drop: the drop position it computes never takes effect unless the
piece was already unable to descend. -/
lemma hardDrop3d_eq_moveDown3d (s : GameState) (f1 f2 : Piece) :
    hardDrop3d s f1 f2 = moveDown3d s f1 f2 := by
  unfold hardDrop3d
  cases hp : s.piece with
  | none =>
    unfold moveDown3d
    rw [hp]
  | some p =>
    by_cases hv : isValidMove { p with y := p.y + 1 } s.board = true
    · simp [hv]
    · have hv' := Bool.eq_false_iff.mpr hv
      simp only [hv', Bool.false_eq_true, if_false]
      by_cases hpr : isValidMove (promotedPair s.nextPiece f1 f2).1
          (clearLines (mergePieceToBoard p s.board)).1 = true
      · simp [hpr]
      · have hpr' := Bool.eq_false_iff.mpr hpr
        simp only [hpr', Bool.not_false, if_true]
        rw [getDropPosition_of_stuck p s.board hv']
        unfold moveDown3d
        rw [hp]
        simp only [hv', Bool.false_eq_true, if_false, hpr', Bool.not_false,
          if_true]

lemma hardDropH_board (s : HoldState) (p f1 f2 : Piece)
    (hp : s.piece = some p) :
    (hardDropH s f1 f2).board =
      (clearLines (mergePieceToBoard
        { p with y := getDropPosition p s.board } s.board)).1 := by
  unfold hardDropH
  rw [hp]
  by_cases hv : isValidMove (promotedPair s.nextPiece f1 f2).1
      (clearLines (mergePieceToBoard
        { p with y := getDropPosition p s.board } s.board)).1 = true
  · simp [hv]
  · simp [Bool.eq_false_iff.mpr hv]

/-- Claim C8 (amended): in the canvas hold-enabled variant, hard drop
computes, by repeated validity checks, the exact largest `y'` reachable by
valid unit descents (every chain position is valid, the next one is not),
and its merge-and-clear equals the merge-and-clear produced by iterated
single-step soft drops from the current position — same board, same
cleared-line count. In `tetris-3d.tsx`, however, `hardDrop`'s stale
`moveDown` closure overwrites the queued drop whenever the piece can still
descend, so a hard drop there behaves exactly like a single soft drop. -/
theorem c8_hard_drop_refinement (sh : HoldState) (q : Piece) (k : Int)
    (f1 f2 : Piece) (s3 : GameState)
    (hq : sh.piece = some q) (hocc : hasCell q = true)
    (hval : isValidMove q sh.board = true)
    (hk1 : q.y < k) (hk2 : k ≤ getDropPosition q sh.board) :
    q.y ≤ getDropPosition q sh.board ∧
    isValidMove { q with y := k } sh.board = true ∧
    isValidMove { q with y := getDropPosition q sh.board + 1 } sh.board = false ∧
    softDropLock sh.board ((BOARD_HEIGHT : Int) - q.y).toNat q =
      clearLines (mergePieceToBoard
        { q with y := getDropPosition q sh.board } sh.board) ∧
    (hardDropH sh f1 f2).board =
      (softDropLock sh.board ((BOARD_HEIGHT : Int) - q.y).toNat q).1 ∧
    hardDrop3d s3 f1 f2 = moveDown3d s3 f1 f2 := by
  obtain ⟨hge, hchain, hstop⟩ := getDropPosition_spec q sh.board hocc hval
  have hsoft := softDropLock_eq sh.board ((BOARD_HEIGHT : Int) - q.y).toNat q
  refine ⟨hge, hchain k hk1 hk2, hstop, hsoft, ?_,
    hardDrop3d_eq_moveDown3d s3 f1 f2⟩
  rw [hardDropH_board sh q f1 f2 hq, hsoft]
  rfl

def c8_start3d : GameState :=
  { board := emptyBoard, piece := some pieceI, nextPiece := some pieceO,
    score := 0, level := 1, gameOver := false, speed := 500 }

/-- Claim C8 counterexample: in `tetris-3d.tsx`, hard-dropping the I piece
from spawn on an empty board does not move it to the computed drop row 19
and does not lock: the stale `moveDown` closure leaves it at row 1 with
the board untouched, while soft drops until lock would merge the piece
into row 19 — so the hard drop's board differs from the soft-drop lock
board, refuting the claim for that cited variant. -/
theorem c8_counterexample :
    getDropPosition pieceI emptyBoard = 19 ∧
    (hardDrop3d c8_start3d pieceO pieceO).piece = some { pieceI with y := 1 } ∧
    (hardDrop3d c8_start3d pieceO pieceO).board = emptyBoard ∧
    (softDropLock emptyBoard ((BOARD_HEIGHT : Int) - pieceI.y).toNat pieceI).1 =
      List.replicate 19 emptyRow ++ [[0, 0, 0, 1, 1, 1, 1, 0, 0, 0]] ∧
    (hardDrop3d c8_start3d pieceO pieceO).board ≠
      (softDropLock emptyBoard ((BOARD_HEIGHT : Int) - pieceI.y).toNat pieceI).1 := by
  decide

def c8_hold : HoldState :=
  { board := emptyBoard, piece := some pieceO, nextPiece := some pieceI,
    score := 0, level := 1, gameOver := false, speed := 500,
    storedPiece := none, canStore := true, highScore := 0 }

/-- Witness for C8: the O piece hard-dropping from spawn on an empty
board (drop position 18, probe row 10 valid). -/
theorem c8_hard_drop_refinement_witness :
    (c8_hold.piece = some pieceO ∧ hasCell pieceO = true ∧
     isValidMove pieceO c8_hold.board = true ∧
     pieceO.y < 10 ∧ (10 : Int) ≤ getDropPosition pieceO c8_hold.board) ∧
    (pieceO.y ≤ getDropPosition pieceO c8_hold.board ∧
     isValidMove { pieceO with y := (10 : Int) } c8_hold.board = true ∧
     isValidMove { pieceO with y := getDropPosition pieceO c8_hold.board + 1 }
       c8_hold.board = false ∧
     softDropLock c8_hold.board ((BOARD_HEIGHT : Int) - pieceO.y).toNat pieceO =
       clearLines (mergePieceToBoard
         { pieceO with y := getDropPosition pieceO c8_hold.board } c8_hold.board) ∧
     (hardDropH c8_hold pieceI pieceI).board =
       (softDropLock c8_hold.board ((BOARD_HEIGHT : Int) - pieceO.y).toNat pieceO).1 ∧
     hardDrop3d c8_start3d pieceI pieceI = moveDown3d c8_start3d pieceI pieceI) :=
  ⟨⟨by decide, by decide, by decide, by decide, by decide⟩,
   c8_hard_drop_refinement c8_hold pieceO 10 pieceI pieceI c8_start3d
     (by decide) (by decide) (by decide) (by decide) (by decide)⟩

/-! ## Claim C9: end-to-end run of the I piece on an empty board -/

def c9_start : GameState :=
  { board := emptyBoard, piece := some pieceI, nextPiece := some pieceO,
    score := 0, level := 1, gameOver := false, speed := 500 }

/-- One soft-drop intent (the fresh draws are irrelevant until a lock). -/
def c9_step (s : GameState) : GameState :=
  moveDown s (createNewPiece 2) (createNewPiece 3)

def c9_after (n : Nat) : GameState := c9_step^[n] c9_start

/-- Claim C9 counterexample: the 17th soft-drop from spawn does NOT lock
the I piece — it merely moves it to row 17 with the board, score and next
piece untouched (the piece is one row tall, so row 19 is reached on the
19th drop and the 20th locks). -/
theorem c9_counterexample :
    (c9_after 17).piece = some { pieceI with y := 17 } ∧
    (c9_after 17).board = emptyBoard ∧
    (c9_after 17).score = 0 ∧
    (c9_after 17).nextPiece = some pieceO := by decide

/-- Claim C9 (amended): on an empty 10×20 board the spawned I piece sits
at row 0, columns 3..6 (x = 3, one row of four cells); three soft-drops
move it to row 3 with its shape unchanged; y = 19 is the last valid row
(y = 20 fails); the 19th soft-drop reaches row 19 and the 20th locks the
piece into row 19, columns 3..6, promoting the next piece. -/
theorem c9_end_to_end :
    pieceI.x = 3 ∧ pieceI.y = 0 ∧ pieceI.shape = [[1, 1, 1, 1]] ∧
    (c9_after 3).piece = some { pieceI with y := 3 } ∧
    (c9_after 3).board = emptyBoard ∧
    isValidMove { pieceI with y := 19 } emptyBoard = true ∧
    isValidMove { pieceI with y := 20 } emptyBoard = false ∧
    (c9_after 19).piece = some { pieceI with y := 19 } ∧
    (c9_after 20).piece = some pieceO ∧
    (c9_after 20).board =
      List.replicate 19 emptyRow ++ [[0, 0, 0, 1, 1, 1, 1, 0, 0, 0]] ∧
    (c9_after 20).score = 10 := by decide

end NextTetris
